import Mathlib

/-!
# Verification of the semver engine of `version-enforcer`

Shallow embedding of `src/identifier/semver.go`: version parsing
(`ParseVersion`), requirement parsing (`NewRequirement`), version comparison
(`CompareSemverVersions`) and satisfaction evaluation (`Satisfies`).

Strings are modelled as lists of characters; the inputs of interest are
ASCII, where Go's byte-oriented string functions agree with the
character-level model. A Go runtime panic (nil-pointer dereference) is
modelled as `Option.none`; `error` returns are modelled with `Except`.
-/

namespace VersionEnforcer

/-- Go `unicode.IsSpace` restricted to the Latin-1 range, which is the only
range these claims exercise: space, tab, newline, vertical tab, form feed,
carriage return, NEL (U+0085) and NBSP (U+00A0). -/
def isGoSpace (c : Char) : Bool :=
  c = ' ' || c = '\t' || c = '\n' || c = '\x0b' || c = '\x0c' || c = '\r' ||
  c = '\u0085' || c = ' '

/-- `strings.TrimSpace`, left side: drop leading white space. -/
def goTrimLeft (s : List Char) : List Char :=
  s.dropWhile isGoSpace

/-- `strings.TrimSpace`, right side: drop trailing white space. -/
def goTrimRight (s : List Char) : List Char :=
  (s.reverse.dropWhile isGoSpace).reverse

/-- Go `strings.TrimSpace`. -/
def goTrimSpace (s : List Char) : List Char :=
  goTrimRight (goTrimLeft s)

/-- Go `strings.TrimPrefix(s, "v")`: strip one leading `v` if present. -/
def stripV (s : List Char) : List Char :=
  match s with
  | c :: t => if c = 'v' then t else c :: t
  | [] => []

/-- Go `strings.SplitN(s, sep, n)` for a one-character separator: split
around instances of `sep` into at most `n` substrings, the last one holding
the unsplit remainder (`n = 0` yields the empty list, as in Go). -/
def goSplitN (sep : Char) : Nat → List Char → List (List Char)
  | 0, _ => []
  | 1, s => [s]
  | n + 2, s =>
    match s.dropWhile (· ≠ sep) with
    | [] => [s]
    | _ :: tail => s.takeWhile (· ≠ sep) :: goSplitN sep (n + 1) tail

/-- Go `strings.Split(s, sep)` for a one-character separator (no limit). -/
def goSplitAll (sep : Char) (s : List Char) : List (List Char) :=
  s.splitOn sep

/-- The two failure modes of Go `strconv.Atoi`: a malformed numeral
(`ErrSyntax`) or a value outside the `int64` range (`ErrRange`). -/
inductive AtoiErr where
  | malformed
  | outOfRange
  deriving DecidableEq, Repr

/-- The digit-parsing core of Go `strconv.Atoi`/`strconv.ParseInt` after the
optional sign has been consumed: one or more ASCII decimal digits, the value
range-checked against `int64`. -/
def atoiDigits (neg : Bool) (ds : List Char) : Except AtoiErr Int :=
  if ds = [] then .error .malformed
  else if ds.all Char.isDigit then
    let n : Nat := ds.foldl (fun a c => a * 10 + (c.toNat - 48)) 0
    let v : Int := if neg then -(n : Int) else (n : Int)
    if v < -(2 ^ 63) ∨ 2 ^ 63 - 1 < v then .error .outOfRange else .ok v
  else .error .malformed

/-- Go `strconv.Atoi`: an optional single `+` or `-` sign followed by one or
more ASCII decimal digits. -/
def atoi (s : List Char) : Except AtoiErr Int :=
  match s with
  | [] => atoiDigits false []
  | c :: rest =>
    if c = '-' then atoiDigits true rest
    else if c = '+' then atoiDigits false rest
    else atoiDigits false (c :: rest)

/-- The errors `ParseVersion` can return: its own
`"invalid version, too many parts"` error, or a `strconv` error carrying the
offending segment. -/
inductive ParseError where
  | tooManyParts
  | invalidInteger (num : List Char) (kind : AtoiErr)
  deriving DecidableEq, Repr

/-- The Go struct `SemverVersion{Major int; Minor *int; Patch *int}`;
a `nil` pointer is `none`. -/
structure SemverVersion where
  major : Int
  minor : Option Int
  patch : Option Int
  deriving DecidableEq, Repr

/-- The tag `RequirementType`. -/
inductive RequirementType where
  | exact
  | caret
  | tilde
  | singleConditionEqual
  | singleConditionGreaterThan
  | singleConditionLessThan
  | singleConditionGreaterThanOrEqual
  | singleConditionLessThanOrEqual
  deriving DecidableEq, Repr

/-- The Go struct `Requirement`; `MaxVersion` is never populated by
`NewRequirement` but is kept for fidelity. -/
structure Requirement where
  type : RequirementType
  version : SemverVersion
  maxVersion : Option SemverVersion
  deriving DecidableEq, Repr

/-- The patch-comparison tail of `CompareSemverVersions` (reached when the
majors are equal and the minor comparison fell through). -/
def comparePatchGo (a b : SemverVersion) : Int :=
  match a.patch, b.patch with
  | some ap, some bp => if ap > bp then 1 else if ap < bp then -1 else 0
  | some _, none => 1
  | none, some _ => -1
  | none, none => 0

/-- Go `CompareSemverVersions`: lexicographic over (major, minor, patch)
with a present component outranking an absent one. -/
def compareSemverVersions (a b : SemverVersion) : Int :=
  if a.major > b.major then 1
  else if a.major < b.major then -1
  else
    match a.minor, b.minor with
    | some am, some bm =>
      if am > bm then 1
      else if am < bm then -1
      else comparePatchGo a b
    | some _, none => 1
    | none, some _ => -1
    | none, none => comparePatchGo a b

/-- The body of `ParseVersion` after splitting: the `len(parts) > 3` guard,
then left-to-right `strconv.Atoi` of each segment, setting the
minor/patch-present flags. -/
def parseParts (parts : List (List Char)) : Except ParseError SemverVersion :=
  if 3 < parts.length then .error .tooManyParts
  else
    match parts with
    | [] => .ok ⟨0, none, none⟩
    | [p0] =>
      match atoi p0 with
      | .error k => .error (.invalidInteger p0 k)
      | .ok major => .ok ⟨major, none, none⟩
    | [p0, p1] =>
      match atoi p0 with
      | .error k => .error (.invalidInteger p0 k)
      | .ok major =>
        match atoi p1 with
        | .error k => .error (.invalidInteger p1 k)
        | .ok minor => .ok ⟨major, some minor, none⟩
    | p0 :: p1 :: p2 :: _ =>
      match atoi p0 with
      | .error k => .error (.invalidInteger p0 k)
      | .ok major =>
        match atoi p1 with
        | .error k => .error (.invalidInteger p1 k)
        | .ok minor =>
          match atoi p2 with
          | .error k => .error (.invalidInteger p2 k)
          | .ok patch => .ok ⟨major, some minor, some patch⟩

/-- The preprocessing of `ParseVersion`: trim white space, strip a leading
`v`. -/
def preprocess (s : List Char) : List Char :=
  stripV (goTrimSpace s)

/-- Go `ParseVersion` on a character list. -/
def parseVersionL (s : List Char) : Except ParseError SemverVersion :=
  parseParts (goSplitN '.' 3 (preprocess s))

/-- Go `ParseVersion`. -/
def parseVersion (s : String) : Except ParseError SemverVersion :=
  parseVersionL s.toList

/-- The character class `[><=]` of `operatorRegex`. -/
def isOpChar (c : Char) : Bool :=
  c = '>' || c = '<' || c = '='

/-- RE2 `\s`, i.e. `[\t\n\f\r ]`. -/
def isRegexSpace (c : Char) : Bool :=
  c = '\t' || c = '\n' || c = '\x0c' || c = '\r' || c = ' '

/-- After the operator, the regex `\s*(.*)` greedily skips white space and
captures the rest of the line (`.` does not match a newline). -/
def captureTail (s : List Char) : List Char :=
  (s.dropWhile isRegexSpace).takeWhile (· ≠ '\n')

/-- `operatorRegex.FindStringSubmatch`: the regex
`([><=]{1,2})\s*(.*)` matched leftmost, the `{1,2}` quantifier greedy.
Returns the two capture groups (operator, version text), or `none` when the
string holds no operator character. -/
def findOperatorMatch : List Char → Option (List Char × List Char)
  | [] => none
  | c :: rest =>
    if isOpChar c then
      match rest with
      | c2 :: rest2 =>
        if isOpChar c2 then some ([c, c2], captureTail rest2)
        else some ([c], captureTail rest)
      | [] => some ([c], [])
    else findOperatorMatch rest

/-- The map `conditionOperatorToType`. -/
def conditionOperatorToType (op : List Char) : Option RequirementType :=
  if op = ['=', '='] then some .singleConditionEqual
  else if op = ['>'] then some .singleConditionGreaterThan
  else if op = ['<'] then some .singleConditionLessThan
  else if op = ['>', '='] then some .singleConditionGreaterThanOrEqual
  else if op = ['<', '='] then some .singleConditionLessThanOrEqual
  else none

/-- The tail of `NewRequirement` once both `strings.HasPrefix` tests have
failed: try the operator regex, fall through to parsing the whole text as an
`Exact` version. -/
def newRequirementNoPre (s : List Char) : Except ParseError Requirement :=
  let exactCase : Except ParseError Requirement :=
    match parseVersionL s with
    | .error e => .error e
    | .ok v => .ok ⟨.exact, v, none⟩
  match findOperatorMatch s with
  | some (op, versionText) =>
    match conditionOperatorToType op with
    | some rt =>
      match parseVersionL versionText with
      | .error e => .error e
      | .ok v => .ok ⟨rt, v, none⟩
    | none => exactCase
  | none => exactCase

/-- Go `NewRequirement` on a character list; `strings.HasPrefix(s, "^")`
and `strings.HasPrefix(s, "~")` are head tests on the character list. -/
def newRequirementL (s : List Char) : Except ParseError Requirement :=
  match s with
  | c :: rest =>
    if c = '^' then
      match parseVersionL rest with
      | .error e => .error e
      | .ok v => .ok ⟨.caret, v, none⟩
    else if c = '~' then
      match parseVersionL rest with
      | .error e => .error e
      | .ok v => .ok ⟨.tilde, v, none⟩
    else newRequirementNoPre (c :: rest)
  | [] => newRequirementNoPre []

/-- Go `NewRequirement`. -/
def newRequirement (s : String) : Except ParseError Requirement :=
  newRequirementL s.toList

/-- Go `Satisfies`. `none` models a runtime panic (the unguarded
`*v.Minor` dereferences in the `Tilde` branches); `some b` models a normal
boolean return. The `&&` chains of the Go source short-circuit, so a
dereference is only reached when the preceding equality tests succeed. -/
def satisfies (version requirement : String) : Option Bool :=
  match newRequirement requirement with
  | .error _ => some false
  | .ok req =>
    match parseVersion version with
    | .error _ => some false
    | .ok v =>
      match req.type with
      | .exact => some (decide (compareSemverVersions v req.version = 0))
      | .caret => some (decide (compareSemverVersions v req.version = 0))
      | .tilde =>
        if req.version.minor = none ∧ req.version.patch = none then
          some (decide (req.version.major = v.major))
        else if req.version.patch = none then
          -- return req.Version.Major == v.Major && *req.Version.Minor == *v.Minor
          if req.version.major = v.major then
            match req.version.minor, v.minor with
            | some rm, some vm => some (decide (rm = vm))
            | _, _ => none
          else some false
        else
          -- return req.Version.Major == v.Major && *req.Version.Minor == *v.Minor
          --   && CompareSemverVersions(*v, req.Version) >= 0
          if req.version.major = v.major then
            match req.version.minor, v.minor with
            | some rm, some vm =>
              if rm = vm then
                some (decide (compareSemverVersions v req.version ≥ 0))
              else some false
            | _, _ => none
          else some false
      | .singleConditionEqual =>
        some (decide (compareSemverVersions v req.version = 0))
      | .singleConditionGreaterThan =>
        some (decide (compareSemverVersions v req.version > 0))
      | .singleConditionLessThan =>
        some (decide (compareSemverVersions v req.version < 0))
      | .singleConditionGreaterThanOrEqual =>
        some (decide (compareSemverVersions v req.version ≥ 0))
      | .singleConditionLessThanOrEqual =>
        some (decide (compareSemverVersions v req.version ≤ 0))

/-!
## Helper lemmas
-/

/-- `atoiDigits` rejects any segment holding a non-digit character. -/
theorem atoiDigits_nondigit (neg : Bool) (ds : List Char) (c : Char)
    (hc : c ∈ ds) (hd : c.isDigit = false) :
    atoiDigits neg ds = .error .malformed := by
  have hne : ds ≠ [] := by rintro rfl; cases hc
  have hall : ¬ (ds.all Char.isDigit = true) := by
    intro hall
    have := List.all_eq_true.mp hall c hc
    rw [hd] at this
    cases this
  unfold atoiDigits
  rw [if_neg hne, if_neg hall]

/-- `atoi` rejects any string holding a non-digit character other than a
sign. -/
theorem atoi_nondigit (s : List Char) (c : Char) (hc : c ∈ s)
    (hd : c.isDigit = false) (hm : c ≠ '-') (hp : c ≠ '+') :
    atoi s = .error .malformed := by
  cases s with
  | nil => cases hc
  | cons a rest =>
    show (if a = '-' then atoiDigits true rest
      else if a = '+' then atoiDigits false rest
      else atoiDigits false (a :: rest)) = .error .malformed
    have hmem : c = a ∨ c ∈ rest := List.mem_cons.mp hc
    by_cases ha : a = '-'
    · have hcr : c ∈ rest := by
        rcases hmem with h1 | h1
        · exact absurd (h1.trans ha) hm
        · exact h1
      rw [if_pos ha]
      exact atoiDigits_nondigit true rest c hcr hd
    · by_cases hb : a = '+'
      · have hcr : c ∈ rest := by
          rcases hmem with h1 | h1
          · exact absurd (h1.trans hb) hp
          · exact h1
        rw [if_neg ha, if_pos hb]
        exact atoiDigits_nondigit false rest c hcr hd
      · rw [if_neg ha, if_neg hb]
        exact atoiDigits_nondigit false (a :: rest) c hc hd

/-- Splitting a list holding the separator: the part before the first
separator, the part after it, and the separator count of the remainder. -/
theorem break_at_sep (sep : Char) (s : List Char) (h : sep ∈ s) :
    ∃ pre tail, s.takeWhile (· ≠ sep) = pre ∧
      s.dropWhile (· ≠ sep) = sep :: tail ∧
      List.count sep tail + 1 = List.count sep s := by
  induction s with
  | nil => cases h
  | cons c t ih =>
    by_cases hc : c = sep
    · subst hc
      refine ⟨[], t, ?_, ?_, ?_⟩
      · rw [List.takeWhile_cons, if_neg (by simp)]
      · rw [List.dropWhile_cons, if_neg (by simp)]
      · rw [List.count_cons_self]
    · have ht : sep ∈ t := by
        rcases List.mem_cons.mp h with h1 | h1
        · exact absurd h1.symm hc
        · exact h1
      obtain ⟨pre, tail, h1, h2, h3⟩ := ih ht
      refine ⟨c :: pre, tail, ?_, ?_, ?_⟩
      · rw [List.takeWhile_cons, if_pos (by simp [hc]), h1]
      · rw [List.dropWhile_cons, if_pos (by simp [hc]), h2]
      · rw [List.count_cons_of_ne (Ne.symm hc)]
        exact h3

/-- Unfolding equation of `goSplitN` at a limit of at least two. -/
theorem goSplitN_succ_succ (sep : Char) (n : Nat) (s : List Char) :
    goSplitN sep (n + 2) s =
      match s.dropWhile (· ≠ sep) with
      | [] => [s]
      | _ :: tail => s.takeWhile (· ≠ sep) :: goSplitN sep (n + 1) tail := rfl

/-- A list with at least three separators splits under `goSplitN _ 3` into
exactly three parts, the last of which still holds a separator. -/
theorem goSplitN3_of_many_seps (sep : Char) (s : List Char)
    (h : 3 ≤ List.count sep s) :
    ∃ p0 p1 p2, goSplitN sep 3 s = [p0, p1, p2] ∧ sep ∈ p2 := by
  have h0 : sep ∈ s := List.count_pos_iff.mp (by omega)
  obtain ⟨p0, t1, ht0, hd0, hc0⟩ := break_at_sep sep s h0
  have h1 : sep ∈ t1 := List.count_pos_iff.mp (by omega)
  obtain ⟨p1, t2, ht1, hd1, hc1⟩ := break_at_sep sep t1 h1
  have h2 : sep ∈ t2 := List.count_pos_iff.mp (by omega)
  refine ⟨p0, p1, t2, ?_, h2⟩
  have e3 : goSplitN sep 3 s =
      match s.dropWhile (· ≠ sep) with
      | [] => [s]
      | _ :: tail => s.takeWhile (· ≠ sep) :: goSplitN sep 2 tail :=
    goSplitN_succ_succ sep 1 s
  rw [e3, hd0, ht0]
  show p0 :: goSplitN sep 2 t1 = [p0, p1, t2]
  have e2 : goSplitN sep 2 t1 =
      match t1.dropWhile (· ≠ sep) with
      | [] => [t1]
      | _ :: tail => t1.takeWhile (· ≠ sep) :: goSplitN sep 1 tail :=
    goSplitN_succ_succ sep 0 t1
  rw [e2, hd1, ht1]
  show p0 :: p1 :: goSplitN sep 1 t2 = [p0, p1, t2]
  rfl

/-- Evaluation of `parseParts` on an empty split. -/
theorem parseParts_nil : parseParts [] = .ok ⟨0, none, none⟩ := rfl

/-- Evaluation of `parseParts` on a one-segment split. -/
theorem parseParts_one (p0 : List Char) :
    parseParts [p0] =
      match atoi p0 with
      | .error k => .error (.invalidInteger p0 k)
      | .ok major => .ok ⟨major, none, none⟩ := rfl

/-- Evaluation of `parseParts` on a two-segment split. -/
theorem parseParts_two (p0 p1 : List Char) :
    parseParts [p0, p1] =
      match atoi p0 with
      | .error k => .error (.invalidInteger p0 k)
      | .ok major =>
        match atoi p1 with
        | .error k => .error (.invalidInteger p1 k)
        | .ok minor => .ok ⟨major, some minor, none⟩ := rfl

/-- Evaluation of `parseParts` on a three-segment split. -/
theorem parseParts_three (p0 p1 p2 : List Char) :
    parseParts [p0, p1, p2] =
      match atoi p0 with
      | .error k => .error (.invalidInteger p0 k)
      | .ok major =>
        match atoi p1 with
        | .error k => .error (.invalidInteger p1 k)
        | .ok minor =>
          match atoi p2 with
          | .error k => .error (.invalidInteger p2 k)
          | .ok patch => .ok ⟨major, some minor, some patch⟩ := rfl

/-- Evaluation of `parseParts` on a split of more than three segments. -/
theorem parseParts_overflow (p0 p1 p2 p3 : List Char) (r : List (List Char)) :
    parseParts (p0 :: p1 :: p2 :: p3 :: r) = .error .tooManyParts := by
  unfold parseParts
  rw [if_pos]
  simp [List.length_cons]

/-- A successful `parseParts` run parsed every segment with `atoi`. -/
theorem parseParts_ok_atoi (parts : List (List Char)) (v : SemverVersion)
    (h : parseParts parts = .ok v) :
    ∀ p ∈ parts, ∃ n, atoi p = .ok n := by
  rcases parts with _ | ⟨p0, _ | ⟨p1, _ | ⟨p2, _ | ⟨p3, r⟩⟩⟩⟩
  · intro p hp; cases hp
  · rw [parseParts_one] at h
    cases hA0 : atoi p0 with
    | error k => rw [hA0] at h; cases h
    | ok m0 =>
      intro p hp
      rcases List.mem_singleton.mp hp with rfl
      exact ⟨m0, hA0⟩
  · rw [parseParts_two] at h
    cases hA0 : atoi p0 with
    | error k => rw [hA0] at h; cases h
    | ok m0 =>
      rw [hA0] at h
      cases hA1 : atoi p1 with
      | error k => rw [hA1] at h; cases h
      | ok m1 =>
        intro p hp
        rcases List.mem_cons.mp hp with rfl | hp1
        · exact ⟨m0, hA0⟩
        · rcases List.mem_singleton.mp hp1 with rfl
          exact ⟨m1, hA1⟩
  · rw [parseParts_three] at h
    cases hA0 : atoi p0 with
    | error k => rw [hA0] at h; cases h
    | ok m0 =>
      rw [hA0] at h
      cases hA1 : atoi p1 with
      | error k => rw [hA1] at h; cases h
      | ok m1 =>
        rw [hA1] at h
        cases hA2 : atoi p2 with
        | error k => rw [hA2] at h; cases h
        | ok m2 =>
          intro p hp
          rcases List.mem_cons.mp hp with rfl | hp1
          · exact ⟨m0, hA0⟩
          rcases List.mem_cons.mp hp1 with rfl | hp2
          · exact ⟨m1, hA1⟩
          rcases List.mem_singleton.mp hp2 with rfl
          exact ⟨m2, hA2⟩
  · rw [parseParts_overflow] at h; cases h

/-- A successful `parseParts` run sets the minor flag iff it saw at least
two segments, and the patch flag iff it saw three. -/
theorem parseParts_ok_shape (parts : List (List Char)) (v : SemverVersion)
    (h : parseParts parts = .ok v) :
    (v.minor.isSome = true ↔ 2 ≤ parts.length) ∧
    (v.patch.isSome = true ↔ parts.length = 3) := by
  rcases parts with _ | ⟨p0, _ | ⟨p1, _ | ⟨p2, _ | ⟨p3, r⟩⟩⟩⟩
  · rw [parseParts_nil] at h; cases h; simp
  · rw [parseParts_one] at h
    cases hA0 : atoi p0 with
    | error k => rw [hA0] at h; cases h
    | ok m0 => rw [hA0] at h; cases h; simp
  · rw [parseParts_two] at h
    cases hA0 : atoi p0 with
    | error k => rw [hA0] at h; cases h
    | ok m0 =>
      rw [hA0] at h
      cases hA1 : atoi p1 with
      | error k => rw [hA1] at h; cases h
      | ok m1 => rw [hA1] at h; cases h; simp
  · rw [parseParts_three] at h
    cases hA0 : atoi p0 with
    | error k => rw [hA0] at h; cases h
    | ok m0 =>
      rw [hA0] at h
      cases hA1 : atoi p1 with
      | error k => rw [hA1] at h; cases h
      | ok m1 =>
        rw [hA1] at h
        cases hA2 : atoi p2 with
        | error k => rw [hA2] at h; cases h
        | ok m2 => rw [hA2] at h; cases h; simp
  · rw [parseParts_overflow] at h; cases h


/-- `goSplitN` returns at most `n` parts. -/
theorem goSplitN_length_le (sep : Char) :
    ∀ (n : Nat) (s : List Char), 1 ≤ n → (goSplitN sep n s).length ≤ n
  | 0, _, h => by omega
  | 1, s, _ => by simp [goSplitN]
  | n + 2, s, _ => by
    rw [goSplitN_succ_succ]
    cases hd : s.dropWhile (· ≠ sep) with
    | nil => simp
    | cons d tail =>
      have ih := goSplitN_length_le sep (n + 1) tail (by omega)
      simp only [List.length_cons]
      omega

/-- When the first segment fails `atoi`, `parseParts` reports it. -/
theorem parseParts_head_error (p0 : List Char) (rest : List (List Char))
    (k : AtoiErr) (hlen : rest.length ≤ 2) (hA : atoi p0 = .error k) :
    parseParts (p0 :: rest) = .error (.invalidInteger p0 k) := by
  rcases rest with _ | ⟨p1, _ | ⟨p2, _ | ⟨p3, r⟩⟩⟩
  · rw [parseParts_one, hA]
  · rw [parseParts_two, hA]
  · rw [parseParts_three, hA]
  · exfalso; simp [List.length_cons] at hlen

/-- `dropWhile` keeps a final element the predicate rejects. -/
theorem dropWhile_append_last {α} (p : α → Bool) (xs : List α) (a : α)
    (h : p a = false) :
    (xs ++ [a]).dropWhile p = xs.dropWhile p ++ [a] := by
  induction xs with
  | nil => simp [List.dropWhile_cons, h]
  | cons x xs ih =>
    rw [List.cons_append, List.dropWhile_cons, List.dropWhile_cons]
    by_cases hx : p x = true
    · rw [if_pos hx, if_pos hx, ih]
    · rw [if_neg (by simp [hx]), if_neg (by simp [hx]), List.cons_append]

/-- Right-trimming keeps a non-space head element. -/
theorem goTrimRight_cons (c : Char) (t : List Char) (h : isGoSpace c = false) :
    goTrimRight (c :: t) = c :: goTrimRight t := by
  unfold goTrimRight
  rw [List.reverse_cons, dropWhile_append_last isGoSpace t.reverse c h,
    List.reverse_append]
  simp

/-- Preprocessing keeps a head that is neither white space nor `v`. -/
theorem preprocess_cons (c : Char) (t : List Char)
    (hsp : isGoSpace c = false) (hv : c ≠ 'v') :
    preprocess (c :: t) = c :: goTrimRight t := by
  unfold preprocess goTrimSpace goTrimLeft
  rw [List.dropWhile_cons, if_neg (by simp [hsp]), goTrimRight_cons c t hsp]
  simp [stripV, hv]

/-- A version text led by a character that survives preprocessing and is
neither a digit, a sign nor a dot fails with a `strconv` error. -/
theorem parseVersionL_bad_head (c : Char) (t : List Char)
    (hsp : isGoSpace c = false) (hv : c ≠ 'v') (hdot : c ≠ '.')
    (hdig : c.isDigit = false) (hm : c ≠ '-') (hp : c ≠ '+') :
    ∃ seg, parseVersionL (c :: t) =
      Except.error (ParseError.invalidInteger seg AtoiErr.malformed) := by
  have hpre : parseVersionL (c :: t) =
      parseParts (goSplitN '.' 3 (c :: goTrimRight t)) := by
    unfold parseVersionL
    rw [preprocess_cons c t hsp hv]
  have hdrop : (c :: goTrimRight t).dropWhile (· ≠ '.') =
      (goTrimRight t).dropWhile (· ≠ '.') := by
    rw [List.dropWhile_cons, if_pos (by simp [hdot])]
  cases hdw : (goTrimRight t).dropWhile (· ≠ '.') with
  | nil =>
    have hsplit : goSplitN '.' 3 (c :: goTrimRight t) = [c :: goTrimRight t] := by
      rw [goSplitN_succ_succ, hdrop, hdw]
    refine ⟨c :: goTrimRight t, ?_⟩
    rw [hpre, hsplit, parseParts_one,
      atoi_nondigit _ c (List.mem_cons_self c _) hdig hm hp]
  | cons d tail =>
    have htake : (c :: goTrimRight t).takeWhile (· ≠ '.') =
        c :: (goTrimRight t).takeWhile (· ≠ '.') := by
      rw [List.takeWhile_cons, if_pos (by simp [hdot])]
    have hsplit : goSplitN '.' 3 (c :: goTrimRight t) =
        (c :: (goTrimRight t).takeWhile (· ≠ '.')) :: goSplitN '.' 2 tail := by
      rw [goSplitN_succ_succ, hdrop, hdw, htake]
    refine ⟨c :: (goTrimRight t).takeWhile (· ≠ '.'), ?_⟩
    rw [hpre, hsplit]
    exact parseParts_head_error _ _ _ (goSplitN_length_le '.' 2 tail (by omega))
      (atoi_nondigit _ c (List.mem_cons_self c _) hdig hm hp)

/-- The operator regex has no match in a text without operator
characters. -/
theorem findOperatorMatch_eq_none (s : List Char)
    (h : ∀ c ∈ s, isOpChar c = false) :
    findOperatorMatch s = none := by
  induction s with
  | nil => rfl
  | cons c t ih =>
    have hc := h c (List.mem_cons_self c t)
    simp only [findOperatorMatch, hc, Bool.false_eq_true, if_false]
    exact ih fun d hd => h d (List.mem_cons_of_mem c hd)

/-- The operator regex matches at the head when the head is an operator
character. -/
theorem findOperatorMatch_cons_op (c : Char) (t : List Char)
    (hc : isOpChar c = true) :
    ∃ op vtext, findOperatorMatch (c :: t) = some (op, vtext) := by
  cases t with
  | nil => exact ⟨[c], [], by simp [findOperatorMatch, hc]⟩
  | cons c2 r2 =>
    by_cases h2 : isOpChar c2 = true
    · exact ⟨[c, c2], captureTail r2, by simp [findOperatorMatch, hc, h2]⟩
    · exact ⟨[c], captureTail (c2 :: r2), by simp [findOperatorMatch, hc, h2]⟩

/-- Character facts about the three operator characters. -/
theorem opChar_props (c : Char) (hc : isOpChar c = true) :
    isGoSpace c = false ∧ c ≠ 'v' ∧ c ≠ '.' ∧ c.isDigit = false ∧
      c ≠ '-' ∧ c ≠ '+' ∧ c ≠ '^' ∧ c ≠ '~' := by
  have h3 : (c = '>' ∨ c = '<') ∨ c = '=' := by
    simpa [isOpChar] using hc
  rcases h3 with (rfl | rfl) | rfl <;>
    exact ⟨by decide, by decide, by decide, by decide, by decide, by decide,
      by decide, by decide⟩

/-- With no regex match, `NewRequirement` falls through to the `Exact`
case. -/
theorem newRequirementNoPre_no_match (s : List Char)
    (h : findOperatorMatch s = none) :
    newRequirementNoPre s =
      match parseVersionL s with
      | .error e => .error e
      | .ok v => .ok ⟨.exact, v, none⟩ := by
  unfold newRequirementNoPre
  rw [h]

/-!
## Theorems
-/

/-- Claim C3, counterexample: on `"1.2.3.4"` the code returns the
`strconv.Atoi` error for the segment `"3.4"` (because `strings.SplitN`
caps the split at three parts), not the `TooManyParts` error the claim
names. -/
theorem parseVersion_four_parts_not_tooManyParts :
    parseVersion "1.2.3.4" =
      Except.error (ParseError.invalidInteger ['3', '.', '4'] AtoiErr.malformed) ∧
    parseVersion "1.2.3.4" ≠ Except.error ParseError.tooManyParts := by
  have heval : parseVersion "1.2.3.4" =
      Except.error (ParseError.invalidInteger ['3', '.', '4'] AtoiErr.malformed) := rfl
  refine ⟨heval, ?_⟩
  intro hcontra
  exact ParseError.noConfusion (Except.error.inj (heval.symm.trans hcontra))

/-- Claim C3 as amended: on every input whose trimmed, `v`-stripped text
has four or more dot-separated segments (at least three dots),
`ParseVersion` fails with an `InvalidInteger` (`strconv.Atoi`) error — the
`TooManyParts` branch is unreachable because `strings.SplitN(s, ".", 3)`
never yields more than three parts. -/
theorem parseVersion_four_segments_invalidInteger (s : String)
    (h : 3 ≤ List.count '.' (preprocess s.toList)) :
    ∃ seg kind,
      parseVersion s = Except.error (ParseError.invalidInteger seg kind) := by
  obtain ⟨p0, p1, p2, hsplit, hdot⟩ :=
    goSplitN3_of_many_seps '.' (preprocess s.toList) h
  have hpv : parseVersion s = parseParts [p0, p1, p2] := by
    unfold parseVersion parseVersionL
    rw [hsplit]
  rw [hpv]
  have hlen : ¬ (3 < ([p0, p1, p2] : List (List Char)).length) := by simp
  unfold parseParts
  rw [if_neg hlen]
  cases hA0 : atoi p0 with
  | error k => exact ⟨p0, k, by simp [hA0]⟩
  | ok m0 =>
    cases hA1 : atoi p1 with
    | error k => exact ⟨p1, k, by simp [hA0, hA1]⟩
    | ok m1 =>
      have hA2 : atoi p2 = .error .malformed :=
        atoi_nondigit p2 '.' hdot (by decide) (by decide) (by decide)
      exact ⟨p2, .malformed, by simp [hA0, hA1, hA2]⟩

/-- Witness for the amended C3 at input `"1.2.3.4"`. -/
theorem parseVersion_four_segments_invalidInteger_witness :
    3 ≤ List.count '.' (preprocess "1.2.3.4".toList) ∧
    ∃ seg kind, parseVersion "1.2.3.4" =
      Except.error (ParseError.invalidInteger seg kind) :=
  ⟨by decide, parseVersion_four_segments_invalidInteger "1.2.3.4" (by decide)⟩

/-- Claim C4, counterexample: the claim says a negative segment such as
`"-1"` yields an `InvalidInteger` error and that no `Version` ever carries
a negative component, but `strconv.Atoi` accepts an optional sign, so
`ParseVersion("-1")` succeeds with major `-1`. -/
theorem parseVersion_negative_parses_ok :
    parseVersion "-1" = Except.ok ⟨-1, none, none⟩ := rfl

/-- Claim C4 as amended: `ParseVersion` succeeds only when every
dot-separated segment is accepted by `strconv.Atoi` (an optionally signed
decimal integer); a non-numeric segment such as in `"1.x.3"` yields an
`InvalidInteger` error, but a negative segment such as `"-1"` parses
successfully into a `Version` with a negative component. -/
theorem parseVersion_ok_segments_all_atoi (s : String) (v : SemverVersion)
    (h : parseVersion s = .ok v) :
    (∀ p ∈ goSplitN '.' 3 (preprocess s.toList), ∃ n, atoi p = .ok n) ∧
    parseVersion "1.x.3" =
      Except.error (ParseError.invalidInteger ['x'] AtoiErr.malformed) ∧
    parseVersion "-1" = Except.ok ⟨-1, none, none⟩ :=
  ⟨parseParts_ok_atoi _ v h, rfl, rfl⟩

/-- Witness for the amended C4 at input `"1.2.3"`. -/
theorem parseVersion_ok_segments_all_atoi_witness :
    parseVersion "1.2.3" = Except.ok ⟨1, some 2, some 3⟩ ∧
    ((∀ p ∈ goSplitN '.' 3 (preprocess "1.2.3".toList), ∃ n, atoi p = .ok n) ∧
      parseVersion "1.x.3" =
        Except.error (ParseError.invalidInteger ['x'] AtoiErr.malformed) ∧
      parseVersion "-1" = Except.ok ⟨-1, none, none⟩) :=
  ⟨rfl, parseVersion_ok_segments_all_atoi "1.2.3" ⟨1, some 2, some 3⟩ rfl⟩

/-- Claim C9: every `Version` returned by `ParseVersion` satisfies the
invariant that a present patch implies a present minor, and the presence
pattern mirrors the number of segments of the (trimmed, `v`-stripped)
input: minor present iff at least two segments, patch present iff exactly
three; illustrated on `"7"`, `"7.8"` and `"7.8.9"`. -/
theorem parseVersion_presence_invariant (s : String) (v : SemverVersion)
    (h : parseVersion s = .ok v) :
    (v.patch.isSome = true → v.minor.isSome = true) ∧
    (v.minor.isSome = true ↔ 2 ≤ (goSplitN '.' 3 (preprocess s.toList)).length) ∧
    (v.patch.isSome = true ↔ (goSplitN '.' 3 (preprocess s.toList)).length = 3) ∧
    parseVersion "7" = Except.ok ⟨7, none, none⟩ ∧
    parseVersion "7.8" = Except.ok ⟨7, some 8, none⟩ ∧
    parseVersion "7.8.9" = Except.ok ⟨7, some 8, some 9⟩ := by
  obtain ⟨hminor, hpatch⟩ := parseParts_ok_shape _ v h
  refine ⟨?_, hminor, hpatch, rfl, rfl, rfl⟩
  intro hp
  have := hpatch.mp hp
  exact hminor.mpr (by omega)

/-- Witness for C9 at input `"7.8.9"`. -/
theorem parseVersion_presence_invariant_witness :
    parseVersion "7.8.9" = Except.ok ⟨7, some 8, some 9⟩ ∧
    (((⟨7, some 8, some 9⟩ : SemverVersion).patch.isSome = true →
        (⟨7, some 8, some 9⟩ : SemverVersion).minor.isSome = true) ∧
      ((⟨7, some 8, some 9⟩ : SemverVersion).minor.isSome = true ↔
        2 ≤ (goSplitN '.' 3 (preprocess "7.8.9".toList)).length) ∧
      ((⟨7, some 8, some 9⟩ : SemverVersion).patch.isSome = true ↔
        (goSplitN '.' 3 (preprocess "7.8.9".toList)).length = 3) ∧
      parseVersion "7" = Except.ok ⟨7, none, none⟩ ∧
      parseVersion "7.8" = Except.ok ⟨7, some 8, none⟩ ∧
      parseVersion "7.8.9" = Except.ok ⟨7, some 8, some 9⟩) :=
  ⟨rfl, parseVersion_presence_invariant "7.8.9" ⟨7, some 8, some 9⟩ rfl⟩

/-- Claim C1: the spec (and the repository's own regression test
`TestRegressionFuzzDoesSemverMatch_01`) state that `Satisfies("1", "~1.0")`
returns `true`; the code instead reaches
`*req.Version.Minor == *v.Minor` with `v.Minor == nil` and panics with a
nil-pointer dereference, modelled here as `none`. -/
theorem satisfies_one_tilde_one_point_zero_panics :
    satisfies "1" "~1.0" = none := by
  rfl

/-- Claim C2: `Satisfies` is not total: on version `"1"` and requirement
`"~1.0.0"` (the input of regression test
`TestRegressionFuzzDoesSemverMatch_02`) the fully-specified tilde branch
dereferences the candidate's nil `Minor` pointer and panics, modelled here
as `none`, refuting the claim that every input returns a boolean. -/
theorem satisfies_not_total_nil_minor_panic :
    satisfies "1" "~1.0.0" = none := by
  rfl

/-- Claim C6: for every parsable version text and every requirement that
parses to an `Exact` or `Caret` requirement, `Satisfies` returns exactly the
test `CompareSemverVersions(version, target) == 0`; in particular
`Satisfies("1.2.3", "1.2")` is false while `Satisfies("1.2.3", "1.2.3")` and
`Satisfies("1.2.3", "^1.2.3")` are true. -/
theorem satisfies_exact_caret_iff_equal (vt rt : String) (v : SemverVersion)
    (r : Requirement) (hv : parseVersion vt = .ok v)
    (hr : newRequirement rt = .ok r)
    (hty : r.type = .exact ∨ r.type = .caret) :
    satisfies vt rt = some (decide (compareSemverVersions v r.version = 0)) ∧
    satisfies "1.2.3" "1.2" = some false ∧
    satisfies "1.2.3" "1.2.3" = some true ∧
    satisfies "1.2.3" "^1.2.3" = some true := by
  refine ⟨?_, by rfl, by rfl, by rfl⟩
  rcases hty with h | h <;> simp only [satisfies, hr, hv, h]

/-- Witness for C6 at version `"1.2.3"` and requirement `"1.2.3"`. -/
theorem satisfies_exact_caret_iff_equal_witness :
    parseVersion "1.2.3" = Except.ok ⟨1, some 2, some 3⟩ ∧
    newRequirement "1.2.3" =
      Except.ok ⟨RequirementType.exact, ⟨1, some 2, some 3⟩, none⟩ ∧
    (satisfies "1.2.3" "1.2.3" =
        some (decide
          (compareSemverVersions ⟨1, some 2, some 3⟩ ⟨1, some 2, some 3⟩ = 0)) ∧
      satisfies "1.2.3" "1.2" = some false ∧
      satisfies "1.2.3" "1.2.3" = some true ∧
      satisfies "1.2.3" "^1.2.3" = some true) :=
  ⟨by rfl, by rfl,
    satisfies_exact_caret_iff_equal "1.2.3" "1.2.3" ⟨1, some 2, some 3⟩
      ⟨RequirementType.exact, ⟨1, some 2, some 3⟩, none⟩ (by rfl) (by rfl)
      (Or.inl rfl)⟩

/-- Claim C7: with equal majors, a present minor beats an absent one in
either direction regardless of its numeric value, and with equal present
minors the same presence-beats-absence rule applies to the patch; in
particular `"1"` compares LESS than `"1.0"`. -/
theorem compareSemverVersions_presence_beats_absence (a b : SemverVersion)
    (hmaj : a.major = b.major) :
    (a.minor.isSome = true → b.minor = none → compareSemverVersions a b = 1) ∧
    (a.minor = none → b.minor.isSome = true → compareSemverVersions a b = -1) ∧
    (∀ m, a.minor = some m → b.minor = some m → a.patch.isSome = true →
      b.patch = none → compareSemverVersions a b = 1) ∧
    (∀ m, a.minor = some m → b.minor = some m → a.patch = none →
      b.patch.isSome = true → compareSemverVersions a b = -1) ∧
    compareSemverVersions ⟨1, none, none⟩ ⟨1, some 0, none⟩ = -1 := by
  obtain ⟨am, amin, apat⟩ := a
  obtain ⟨bm, bmin, bpat⟩ := b
  simp only at hmaj
  subst hmaj
  refine ⟨?_, ?_, ?_, ?_, by decide⟩ <;>
    · cases amin <;> cases bmin <;> cases apat <;> cases bpat <;>
        simp only [compareSemverVersions, comparePatchGo, Option.isSome] <;>
        intros <;> simp_all <;> split_ifs <;> omega

/-- Witness for C7 at `a = ⟨1, some 5, none⟩`, `b = ⟨1, none, none⟩`. -/
theorem compareSemverVersions_presence_beats_absence_witness :
    (⟨1, some 5, none⟩ : SemverVersion).major =
      (⟨1, none, none⟩ : SemverVersion).major ∧
    (((⟨1, some 5, none⟩ : SemverVersion).minor.isSome = true →
        (⟨1, none, none⟩ : SemverVersion).minor = none →
        compareSemverVersions ⟨1, some 5, none⟩ ⟨1, none, none⟩ = 1) ∧
      ((⟨1, some 5, none⟩ : SemverVersion).minor = none →
        (⟨1, none, none⟩ : SemverVersion).minor.isSome = true →
        compareSemverVersions ⟨1, some 5, none⟩ ⟨1, none, none⟩ = -1) ∧
      (∀ m, (⟨1, some 5, none⟩ : SemverVersion).minor = some m →
        (⟨1, none, none⟩ : SemverVersion).minor = some m →
        (⟨1, some 5, none⟩ : SemverVersion).patch.isSome = true →
        (⟨1, none, none⟩ : SemverVersion).patch = none →
        compareSemverVersions ⟨1, some 5, none⟩ ⟨1, none, none⟩ = 1) ∧
      (∀ m, (⟨1, some 5, none⟩ : SemverVersion).minor = some m →
        (⟨1, none, none⟩ : SemverVersion).minor = some m →
        (⟨1, some 5, none⟩ : SemverVersion).patch = none →
        (⟨1, none, none⟩ : SemverVersion).patch.isSome = true →
        compareSemverVersions ⟨1, some 5, none⟩ ⟨1, none, none⟩ = -1) ∧
      compareSemverVersions ⟨1, none, none⟩ ⟨1, some 0, none⟩ = -1) :=
  ⟨rfl, compareSemverVersions_presence_beats_absence
    ⟨1, some 5, none⟩ ⟨1, none, none⟩ rfl⟩

/-- Claim C8: `CompareSemverVersions` is reflexive
(`CompareSemverVersions(v, v) == 0`) and antisymmetric
(`CompareSemverVersions(a, b)` is the negation of
`CompareSemverVersions(b, a)`, so GREATER one way iff LESS the other and
EQUAL iff EQUAL). -/
theorem compareSemverVersions_refl_antisymm (a b : SemverVersion) :
    compareSemverVersions a a = 0 ∧
    compareSemverVersions a b = -compareSemverVersions b a := by
  constructor
  · obtain ⟨am, amin, apat⟩ := a
    cases amin <;> cases apat <;>
      simp only [compareSemverVersions, comparePatchGo] <;>
      split_ifs <;> omega
  · obtain ⟨am, amin, apat⟩ := a
    obtain ⟨bm, bmin, bpat⟩ := b
    cases amin <;> cases bmin <;> cases apat <;> cases bpat <;>
      simp only [compareSemverVersions, comparePatchGo] <;>
      split_ifs <;> omega


/-- Claim C5, counterexample: the operator regex is unanchored, so on
`"1>=2"` the leftmost `>=` in the middle of the text is matched, the `"1"`
before it is silently discarded, and a `SingleCondition` requirement with
target `2` is produced instead of an `Exact` parse of the whole text
(`Satisfies("3", "1>=2")` is even true). -/
theorem newRequirement_midtext_operator_matches :
    newRequirement "1>=2" =
      Except.ok ⟨RequirementType.singleConditionGreaterThanOrEqual,
        ⟨2, none, none⟩, none⟩ ∧
    satisfies "3" "1>=2" = some true := ⟨rfl, rfl⟩

/-- Claim C5 as amended: the fall-through to a whole-text `Exact` parse
happens when the text holds no operator character at all (and does not
start with `^` or `~`); a requirement text with an operator appearing
later, such as `"1>=2"`, is instead captured by the unanchored regex and
becomes a `SingleCondition` requirement, the text before the operator
discarded. -/
theorem newRequirement_no_operator_chars_exact (s : String)
    (hop : ∀ c ∈ s.toList, isOpChar c = false)
    (hcaret : s.toList.head? ≠ some '^') (htilde : s.toList.head? ≠ some '~') :
    newRequirement s =
      (match parseVersionL s.toList with
        | .error e => .error e
        | .ok v => .ok ⟨RequirementType.exact, v, none⟩) ∧
    newRequirement "1>=2" =
      Except.ok ⟨RequirementType.singleConditionGreaterThanOrEqual,
        ⟨2, none, none⟩, none⟩ := by
  refine ⟨?_, rfl⟩
  unfold newRequirement
  rcases hsl : s.toList with _ | ⟨c, t⟩
  · rfl
  · have hc1 : c ≠ '^' := by
      intro h
      rw [hsl, h] at hcaret
      exact hcaret rfl
    have hc2 : c ≠ '~' := by
      intro h
      rw [hsl, h] at htilde
      exact htilde rfl
    have hop' : ∀ d ∈ c :: t, isOpChar d = false := by
      rw [← hsl]; exact hop
    simp only [newRequirementL]
    rw [if_neg hc1, if_neg hc2,
      newRequirementNoPre_no_match _ (findOperatorMatch_eq_none _ hop')]

/-- Witness for the amended C5 at requirement text `"1.2"`. -/
theorem newRequirement_no_operator_chars_exact_witness :
    (∀ c ∈ "1.2".toList, isOpChar c = false) ∧
    "1.2".toList.head? ≠ some '^' ∧
    "1.2".toList.head? ≠ some '~' ∧
    (newRequirement "1.2" =
      (match parseVersionL "1.2".toList with
        | .error e => .error e
        | .ok v => .ok ⟨RequirementType.exact, v, none⟩) ∧
    newRequirement "1>=2" =
      Except.ok ⟨RequirementType.singleConditionGreaterThanOrEqual,
        ⟨2, none, none⟩, none⟩) :=
  ⟨by decide, by decide, by decide,
    newRequirement_no_operator_chars_exact "1.2" (by decide) (by decide) (by decide)⟩

/-- Claim C10: a requirement text led by operator characters whose 1-2
character greedy match is not one of `==`, `>`, `<`, `>=`, `<=` (for
example `"=1.2"`) is never turned into a `SingleCondition` requirement:
the regex matches, the map lookup fails, the text falls through to the
plain-version parse, and `NewRequirement` returns the parse error. -/
theorem newRequirement_unknown_leading_operator_error (s : String) (c : Char) (t : List Char)
    (hs : s.toList = c :: t) (hc : isOpChar c = true)
    (hbad : ∀ op vtext, findOperatorMatch s.toList = some (op, vtext) →
      conditionOperatorToType op = none) :
    ∃ seg, newRequirement s =
      Except.error (ParseError.invalidInteger seg AtoiErr.malformed) := by
  obtain ⟨hsp, hv, hdot, hdig, hm, hp, hcaret, htilde⟩ := opChar_props c hc
  obtain ⟨op, vtext, hfind⟩ := findOperatorMatch_cons_op c t hc
  have hnone : conditionOperatorToType op = none := by
    apply hbad op vtext
    rw [hs]
    exact hfind
  obtain ⟨seg, hpv⟩ := parseVersionL_bad_head c t hsp hv hdot hdig hm hp
  refine ⟨seg, ?_⟩
  unfold newRequirement
  rw [hs]
  simp only [newRequirementL]
  rw [if_neg hcaret, if_neg htilde]
  simp only [newRequirementNoPre, hfind, hnone]
  rw [hpv]

/-- Witness for C10 at requirement text `"=1.2"`. -/
theorem newRequirement_unknown_leading_operator_error_witness :
    "=1.2".toList = '=' :: ['1', '.', '2'] ∧
    isOpChar '=' = true ∧
    (∀ op vtext, findOperatorMatch "=1.2".toList = some (op, vtext) →
      conditionOperatorToType op = none) ∧
    ∃ seg, newRequirement "=1.2" =
      Except.error (ParseError.invalidInteger seg AtoiErr.malformed) := by
  have hbad : ∀ op vtext, findOperatorMatch "=1.2".toList = some (op, vtext) →
      conditionOperatorToType op = none := by
    intro op vt h
    have h2 := Option.some.inj ((rfl : findOperatorMatch "=1.2".toList =
      some (['='], ['1', '.', '2'])).symm.trans h)
    have hop : op = ['='] := (congrArg Prod.fst h2).symm
    rw [hop]
    rfl
  exact ⟨rfl, rfl, hbad,
    newRequirement_unknown_leading_operator_error "=1.2" '=' ['1', '.', '2'] rfl rfl hbad⟩

end VersionEnforcer
